import Mathlib

/-!
Verification of the solar energy time-series engine.

Shallow embedding of the core algorithms of the repository:

* `calculateConsumptionData` (src/utils/solarCalculations.ts): the stateful
  energy flow simulator allocating each period's energy among solar
  self-consumption, battery discharge, grid import, battery charge and export,
  with cost accounting.  JavaScript numbers are modelled as `ℚ`; the local
  hour extracted from a period's ISO date string (`new Date(date).getHours()`)
  is modelled as a `ℕ` field of the entry; nullable numeric fields
  (`number | null | undefined`) are modelled as `Option ℚ`, with JavaScript
  truthiness (`null`/`undefined`/`0` are falsy) made explicit.

* `splitIrradianceValue` / `processSolarIrradianceData`
  (src/services/solarIrradianceService.ts): the Gaussian irradiance
  distributor.  The per-minute Gaussian density (`Math.exp`-based `normalPDF`)
  is a transcendental real-valued function; it is abstracted as a density
  parameter `pdf : ℤ → ℚ`, every other part of the algorithm is embedded
  literally.

* `aggregateToInterval` (src/parsers/csvProcessor.ts): interval resampling.
  Date strings are modelled by their epoch value in milliseconds (`ℤ`);
  JavaScript's `%` on numbers truncates toward zero, which is `Int.tmod`;
  writing a date with `toISOString().slice(0,16)` truncates to whole minutes,
  which on epoch milliseconds is flooring to a multiple of 60000.

* the `isValid` probes of the four CSV parsers and the selector
  `getEnergyCsvParser` (src/parsers/*.ts).

* `calculateSunriseSunset` (src/utils/solarTime.ts): the NOAA sunrise/sunset
  approximation, embedded over `ℝ` with `Real.cos`/`Real.sin`/`Real.arccos`;
  the inputs (day of year, hour, latitude, longitude) are taken as rationals,
  as every JavaScript float is rational.
-/

namespace Solar

/-- A period entry, as produced from `EnergyPeriodEntry`:
`hour` is the local hour `new Date(entry.date).getHours()` of the entry's
date and `value` the energy value in kWh. -/
structure PeriodEntry where
  hour : ℕ
  value : ℚ
deriving DecidableEq, Repr

/-- `EnergySystemDetails` (src/types/index.ts), restricted to the fields the
simulator destructures plus `exportLimit`, which is declared in the interface
and supplied by callers.  Nullable/omittable numeric fields are `Option ℚ`. -/
structure EnergySystemDetails where
  batteryCapacity : ℚ := 0
  peakCost : Option ℚ := none
  offPeakCost : Option ℚ := none
  feedInTariff : Option ℚ := none
  exportLimit : Option ℚ := none
deriving DecidableEq, Repr

/-- JavaScript truthiness of a nullable number: `null`, `undefined` and `0`
are falsy, every other number is truthy. -/
def jsTruthy (x : Option ℚ) : Bool :=
  match x with
  | none => false
  | some v => v != 0

/-- JavaScript `a || b` on nullable numbers, kept at the nullable level. -/
def jsOrOpt (a b : Option ℚ) : Option ℚ :=
  if jsTruthy a then a else b

/-- JavaScript `x || 0` on a nullable number. -/
def jsOrZero (x : Option ℚ) : ℚ :=
  if jsTruthy x then x.getD 0 else 0

/-- `hour >= 14 && hour < 20` — the peak-period test of the simulator. -/
def isPeakHour (hour : ℕ) : Bool :=
  14 ≤ hour && hour < 20

/-- `(isPeak ? peakCost : (offPeakCost || peakCost)) || 0` from the
simulator's cost step. -/
def rateOf (isPeak : Bool) (peakCost offPeakCost : Option ℚ) : ℚ :=
  jsOrZero (if isPeak then peakCost else jsOrOpt offPeakCost peakCost)

/-- Everything one iteration of the simulator loop produces: the four flow
values pushed for the period, the amount charged into the battery, the two
cost entries, and the battery level after the discharge step (`midLevel`)
and after the charge step (`newLevel`). -/
structure StepResult where
  usedSolar : ℚ
  usedBattery : ℚ
  usedGrid : ℚ
  charged : ℚ
  exported : ℚ
  midLevel : ℚ
  newLevel : ℚ
  cost : ℚ
  nonSolarCost : ℚ
deriving DecidableEq, Repr

/-- One iteration of the loop of `calculateConsumptionData`
(src/utils/solarCalculations.ts), for one period: steps 1–6 of the source. -/
def stepPeriod (sys : EnergySystemDetails) (batteryLevel : ℚ)
    (e : PeriodEntry) (solarValue : ℚ) : StepResult :=
  let consumption0 := e.value
  let usedSolar := min consumption0 solarValue
  let consumption1 := consumption0 - usedSolar
  let solar1 := solarValue - usedSolar
  let usedBattery :=
    if 0 < sys.batteryCapacity ∧ 0 < consumption1 ∧ 0 < batteryLevel then
      min consumption1 batteryLevel
    else 0
  let level1 := batteryLevel - usedBattery
  let consumption2 := consumption1 - usedBattery
  let usedGrid := if 0 < consumption2 then consumption2 else 0
  let charged :=
    if 0 < sys.batteryCapacity ∧ 0 < solar1 ∧ level1 < sys.batteryCapacity then
      min solar1 (sys.batteryCapacity - level1)
    else 0
  let level2 := level1 + charged
  let solar2 := solar1 - charged
  let rate := rateOf (isPeakHour e.hour) sys.peakCost sys.offPeakCost
  let costAfterGrid := if 0 < usedGrid then usedGrid * rate else 0
  let cost :=
    if jsTruthy sys.feedInTariff ∧ 0 < solar2 then
      costAfterGrid - solar2 * (sys.feedInTariff.getD 0)
    else costAfterGrid
  { usedSolar := usedSolar
    usedBattery := usedBattery
    usedGrid := usedGrid
    charged := charged
    exported := solar2
    midLevel := level1
    newLevel := level2
    cost := cost
    nonSolarCost := e.value * rate }

/-- The simulator loop of `calculateConsumptionData`, threading the battery
level across periods.  The generation entry for index `i` is
`generationSolar[i]` — a missing entry counts as `0` kWh, matching
`solarEntry ? solarEntry.value : 0`. -/
def runFrom (sys : EnergySystemDetails) (batteryLevel : ℚ) :
    List PeriodEntry → List PeriodEntry → List StepResult
  | [], _ => []
  | c :: cs, gen =>
    let solarValue := ((gen.head?).map PeriodEntry.value).getD 0
    let r := stepPeriod sys batteryLevel c solarValue
    r :: runFrom sys r.newLevel cs gen.tail

/-- A full run of `calculateConsumptionData`: the battery starts empty
(`let batteryLevel = 0`). -/
def runConsumption (sys : EnergySystemDetails)
    (totalConsumption generationSolar : List PeriodEntry) : List StepResult :=
  runFrom sys 0 totalConsumption generationSolar

/-- The `consumptionSolar` output series of a run. -/
def consumptionSolarList (sys : EnergySystemDetails)
    (tc gs : List PeriodEntry) : List ℚ :=
  (runConsumption sys tc gs).map StepResult.usedSolar

/-- The `consumptionBattery` output series of a run. -/
def consumptionBatteryList (sys : EnergySystemDetails)
    (tc gs : List PeriodEntry) : List ℚ :=
  (runConsumption sys tc gs).map StepResult.usedBattery

/-- The `consumptionGrid` output series of a run. -/
def consumptionGridList (sys : EnergySystemDetails)
    (tc gs : List PeriodEntry) : List ℚ :=
  (runConsumption sys tc gs).map StepResult.usedGrid

/-- The `exportedSolar` output series of a run. -/
def exportedSolarList (sys : EnergySystemDetails)
    (tc gs : List PeriodEntry) : List ℚ :=
  (runConsumption sys tc gs).map StepResult.exported

/-- The `consumptionCost` output series of a run. -/
def consumptionCostList (sys : EnergySystemDetails)
    (tc gs : List PeriodEntry) : List ℚ :=
  (runConsumption sys tc gs).map StepResult.cost

/-- The `nonSolarConsumptionCost` output series of a run. -/
def nonSolarCostList (sys : EnergySystemDetails)
    (tc gs : List PeriodEntry) : List ℚ :=
  (runConsumption sys tc gs).map StepResult.nonSolarCost

/-- The battery levels after the discharge step and after the charge step of
every period, in order: the full trace of battery states of a run. -/
def levelTrace (sys : EnergySystemDetails) (batteryLevel : ℚ) :
    List PeriodEntry → List PeriodEntry → List ℚ
  | [], _ => []
  | c :: cs, gen =>
    let solarValue := ((gen.head?).map PeriodEntry.value).getD 0
    let r := stepPeriod sys batteryLevel c solarValue
    r.midLevel :: r.newLevel :: levelTrace sys r.newLevel cs gen.tail

lemma runFrom_length (sys : EnergySystemDetails) (lvl : ℚ)
    (tc gs : List PeriodEntry) : (runFrom sys lvl tc gs).length = tc.length := by
  induction tc generalizing lvl gs with
  | nil => rfl
  | cons c cs ih => simp [runFrom, ih]

lemma stepPeriod_conservation (sys : EnergySystemDetails) (lvl : ℚ)
    (e : PeriodEntry) (s : ℚ) :
    (stepPeriod sys lvl e s).usedSolar + (stepPeriod sys lvl e s).usedBattery +
      (stepPeriod sys lvl e s).usedGrid = e.value := by
  simp only [stepPeriod]
  rcases le_total e.value s with h | h
  · simp only [min_eq_left h]
    split_ifs with h1 h2 h3 <;> push_neg at * <;>
      first
        | (exfalso
           rcases h1 with ⟨_, h1b, h1c⟩
           rcases le_total e.value lvl with hm | hm
           · simp [min_eq_left hm] at *; linarith
           · simp [min_eq_right hm] at *; linarith)
        | linarith [min_le_left (e.value - (e.value ⊓ s) : ℚ) lvl,
            min_le_right (e.value - (e.value ⊓ s) : ℚ) lvl]
  · simp only [min_eq_right h]
    split_ifs with h1 h2 h3 <;> push_neg at * <;>
      first
        | linarith [min_le_left (e.value - s : ℚ) lvl,
            min_le_right (e.value - s : ℚ) lvl,
            le_min (le_of_lt h1.2.1) (le_of_lt h1.2.2)]
        | linarith

lemma runFrom_conservation (sys : EnergySystemDetails) :
    ∀ (tc : List PeriodEntry), ∀ (gs : List PeriodEntry) (lvl : ℚ) (i : ℕ),
      i < tc.length →
      ((runFrom sys lvl tc gs).map StepResult.usedSolar).getD i 0 +
        ((runFrom sys lvl tc gs).map StepResult.usedBattery).getD i 0 +
        ((runFrom sys lvl tc gs).map StepResult.usedGrid).getD i 0 =
        (tc.map PeriodEntry.value).getD i 0 := by
  intro tc
  induction tc with
  | nil => intro gs lvl i hi; simp at hi
  | cons c cs ih =>
    intro gs lvl i hi
    cases i with
    | zero =>
      simpa [runFrom] using stepPeriod_conservation sys lvl c
        (((gs.head?).map PeriodEntry.value).getD 0)
    | succ n =>
      have hn : n < cs.length := by simpa using hi
      simpa [runFrom] using ih gs.tail _ n hn

/-- C1: for every run and every period index, solar + battery + grid
consumption equals total consumption.  Exact over `ℚ`, hence within any
floating tolerance. -/
theorem C1_energy_conservation (sys : EnergySystemDetails)
    (tc gs : List PeriodEntry) (i : ℕ) (hi : i < tc.length) :
    (consumptionSolarList sys tc gs).getD i 0 +
      (consumptionBatteryList sys tc gs).getD i 0 +
      (consumptionGridList sys tc gs).getD i 0 =
      (tc.map PeriodEntry.value).getD i 0 := by
  simpa [consumptionSolarList, consumptionBatteryList, consumptionGridList,
    runConsumption] using runFrom_conservation sys tc gs 0 i hi

lemma stepPeriod_midLevel_bounds (sys : EnergySystemDetails) (lvl : ℚ)
    (e : PeriodEntry) (s : ℚ) (h0 : 0 ≤ lvl) (h1 : lvl ≤ sys.batteryCapacity) :
    0 ≤ (stepPeriod sys lvl e s).midLevel ∧
      (stepPeriod sys lvl e s).midLevel ≤ sys.batteryCapacity := by
  simp only [stepPeriod]
  split_ifs with h <;>
    constructor <;>
    first
      | linarith [min_le_right (e.value - (e.value ⊓ s) : ℚ) lvl]
      | (refine le_trans ?_ h1
         have := le_min (le_of_lt h.2.1) (le_of_lt h.2.2)
         linarith [min_le_right (e.value - (e.value ⊓ s) : ℚ) lvl])

lemma charge_bounds (cap mid s1 : ℚ) (hm0 : 0 ≤ mid) (hm1 : mid ≤ cap) :
    0 ≤ mid + (if 0 < cap ∧ 0 < s1 ∧ mid < cap then min s1 (cap - mid) else 0) ∧
      mid + (if 0 < cap ∧ 0 < s1 ∧ mid < cap then min s1 (cap - mid) else 0) ≤
        cap := by
  split_ifs with h
  · constructor
    · have hmin : (0 : ℚ) ≤ min s1 (cap - mid) :=
        le_min h.2.1.le (by linarith [h.2.2])
      linarith
    · linarith [min_le_right s1 (cap - mid)]
  · constructor <;> linarith

lemma stepPeriod_newLevel_bounds (sys : EnergySystemDetails) (lvl : ℚ)
    (e : PeriodEntry) (s : ℚ) (h0 : 0 ≤ lvl) (h1 : lvl ≤ sys.batteryCapacity) :
    0 ≤ (stepPeriod sys lvl e s).newLevel ∧
      (stepPeriod sys lvl e s).newLevel ≤ sys.batteryCapacity := by
  have hm := stepPeriod_midLevel_bounds sys lvl e s h0 h1
  revert hm
  simp only [stepPeriod]
  intro hm
  exact charge_bounds sys.batteryCapacity _ _ hm.1 hm.2

lemma levelTrace_bounds (sys : EnergySystemDetails)
    (hcap : 0 ≤ sys.batteryCapacity) :
    ∀ (tc gs : List PeriodEntry) (lvl : ℚ), 0 ≤ lvl →
      lvl ≤ sys.batteryCapacity →
      ∀ l ∈ levelTrace sys lvl tc gs, 0 ≤ l ∧ l ≤ sys.batteryCapacity := by
  intro tc
  induction tc with
  | nil => intro gs lvl _ _ l hl; simp [levelTrace] at hl
  | cons c cs ih =>
    intro gs lvl h0 h1 l hl
    simp only [levelTrace, List.mem_cons] at hl
    rcases hl with rfl | rfl | hl
    · exact stepPeriod_midLevel_bounds sys lvl c _ h0 h1
    · exact stepPeriod_newLevel_bounds sys lvl c _ h0 h1
    · obtain ⟨hn0, hn1⟩ := stepPeriod_newLevel_bounds sys lvl c
        (((gs.head?).map PeriodEntry.value).getD 0) h0 h1
      exact ih gs.tail _ hn0 hn1 l hl

/-- C2: with battery capacity ≥ 0 and non-negative consumption and generation
inputs, the battery level satisfies `0 ≤ batteryLevel ≤ batteryCapacity`
after the discharge step and after the charge step of every period of a run
started with an empty battery. -/
theorem C2_battery_bounds (sys : EnergySystemDetails)
    (tc gs : List PeriodEntry)
    (hcap : 0 ≤ sys.batteryCapacity)
    (htc : ∀ e ∈ tc, 0 ≤ e.value) (hgs : ∀ e ∈ gs, 0 ≤ e.value) :
    ∀ l ∈ levelTrace sys 0 tc gs, 0 ≤ l ∧ l ≤ sys.batteryCapacity :=
  levelTrace_bounds sys hcap tc gs 0 le_rfl hcap

/-- Witness for C2 at a concrete input. -/
theorem C2_battery_bounds_witness :
    (0 : ℚ) ≤ (2 : ℚ) ∧
      (∀ l ∈ levelTrace {batteryCapacity := 2} 0
          ([⟨12, 1⟩, ⟨13, 4⟩] : List PeriodEntry)
          ([⟨12, 5⟩, ⟨13, 0⟩] : List PeriodEntry), 0 ≤ l ∧ l ≤ (2 : ℚ)) :=
  ⟨by decide,
    C2_battery_bounds {batteryCapacity := 2} [⟨12, 1⟩, ⟨13, 4⟩]
      [⟨12, 5⟩, ⟨13, 0⟩] (by decide) (by decide) (by decide)⟩

/-- Witness for C1 at a concrete input. -/
theorem C1_energy_conservation_witness :
    (0 : ℕ) < ([⟨12, 5⟩] : List PeriodEntry).length ∧
      (consumptionSolarList {batteryCapacity := 2} [⟨12, 5⟩] [⟨12, 3⟩]).getD 0 0 +
        (consumptionBatteryList {batteryCapacity := 2} [⟨12, 5⟩] [⟨12, 3⟩]).getD 0 0 +
        (consumptionGridList {batteryCapacity := 2} [⟨12, 5⟩] [⟨12, 3⟩]).getD 0 0 =
        (([⟨12, 5⟩] : List PeriodEntry).map PeriodEntry.value).getD 0 0 :=
  ⟨by decide,
    C1_energy_conservation {batteryCapacity := 2} [⟨12, 5⟩] [⟨12, 3⟩] 0 (by decide)⟩

lemma stepPeriod_exportLimit_irrel (sys : EnergySystemDetails) (x : Option ℚ)
    (lvl : ℚ) (e : PeriodEntry) (s : ℚ) :
    stepPeriod {sys with exportLimit := x} lvl e s = stepPeriod sys lvl e s :=
  rfl

lemma runFrom_exportLimit_irrel (sys : EnergySystemDetails) (x : Option ℚ) :
    ∀ (tc gs : List PeriodEntry) (lvl : ℚ),
      runFrom {sys with exportLimit := x} lvl tc gs = runFrom sys lvl tc gs := by
  intro tc
  induction tc with
  | nil => intro gs lvl; rfl
  | cons c cs ih =>
    intro gs lvl
    simp only [runFrom, stepPeriod_exportLimit_irrel, ih]

/-- C3 (code bug): `calculateConsumptionData` never reads
`systemDetails.exportLimit`.  With a configured limit of 5 kWh and a single
period holding 7 kWh of surplus solar, the whole 7 kWh is exported
(exceeding the limit), and the simulation results do not depend on the
`exportLimit` field at all. -/
theorem C3_export_limit_ignored :
    exportedSolarList {exportLimit := some 5} [⟨12, 0⟩] [⟨12, 7⟩] = [7] ∧
      (5 : ℚ) < 7 ∧
      ∀ (sys : EnergySystemDetails) (x : Option ℚ) (tc gs : List PeriodEntry),
        runConsumption {sys with exportLimit := x} tc gs =
          runConsumption sys tc gs := by
  refine ⟨?_, by norm_num, ?_⟩
  · norm_num [exportedSolarList, runConsumption, runFrom, stepPeriod]
  · intro sys x tc gs
    exact runFrom_exportLimit_irrel sys x tc gs 0

lemma stepPeriod_cost_formula (sys : EnergySystemDetails) (lvl : ℚ)
    (e : PeriodEntry) (s : ℚ) :
    (stepPeriod sys lvl e s).cost =
      (stepPeriod sys lvl e s).usedGrid *
          rateOf (isPeakHour e.hour) sys.peakCost sys.offPeakCost -
        (if jsTruthy sys.feedInTariff ∧ 0 < (stepPeriod sys lvl e s).exported
          then (stepPeriod sys lvl e s).exported * sys.feedInTariff.getD 0
          else 0) := by
  simp only [stepPeriod]
  split_ifs <;> first | ring | simp | linarith

lemma stepPeriod_nonSolarCost (sys : EnergySystemDetails) (lvl : ℚ)
    (e : PeriodEntry) (s : ℚ) :
    (stepPeriod sys lvl e s).nonSolarCost =
      e.value * rateOf (isPeakHour e.hour) sys.peakCost sys.offPeakCost :=
  rfl

lemma runFrom_cost_formula (sys : EnergySystemDetails) :
    ∀ (tc : List PeriodEntry), ∀ (gs : List PeriodEntry) (lvl : ℚ) (i : ℕ),
      i < tc.length →
      ((runFrom sys lvl tc gs).map StepResult.cost).getD i 0 =
          ((runFrom sys lvl tc gs).map StepResult.usedGrid).getD i 0 *
              rateOf (isPeakHour ((tc.map PeriodEntry.hour).getD i 0))
                sys.peakCost sys.offPeakCost -
            (if jsTruthy sys.feedInTariff ∧
                0 < ((runFrom sys lvl tc gs).map StepResult.exported).getD i 0
              then ((runFrom sys lvl tc gs).map StepResult.exported).getD i 0 *
                sys.feedInTariff.getD 0
              else 0) ∧
        ((runFrom sys lvl tc gs).map StepResult.nonSolarCost).getD i 0 =
          (tc.map PeriodEntry.value).getD i 0 *
            rateOf (isPeakHour ((tc.map PeriodEntry.hour).getD i 0))
              sys.peakCost sys.offPeakCost := by
  intro tc
  induction tc with
  | nil => intro gs lvl i hi; simp at hi
  | cons c cs ih =>
    intro gs lvl i hi
    cases i with
    | zero =>
      constructor
      · simpa [runFrom] using stepPeriod_cost_formula sys lvl c
          (((gs.head?).map PeriodEntry.value).getD 0)
      · simpa [runFrom] using stepPeriod_nonSolarCost sys lvl c
          (((gs.head?).map PeriodEntry.value).getD 0)
    | succ n =>
      have hn : n < cs.length := by simpa using hi
      simpa [runFrom] using ih gs.tail _ n hn

/-- C8: per period, the emitted cost equals
`usedGrid × rate − exported × feedInTariff`, the feed-in term applying only
when a tariff is configured (non-null, non-zero) and the export is positive;
`rate` is the peak rate when the period's local hour lies in the peak window
and otherwise the off-peak rate with fallback to the peak rate; and the
no-solar baseline cost equals `rawConsumption × rate`. -/
theorem C8_cost_accounting (sys : EnergySystemDetails)
    (tc gs : List PeriodEntry) (i : ℕ) (hi : i < tc.length) :
    (consumptionCostList sys tc gs).getD i 0 =
        (consumptionGridList sys tc gs).getD i 0 *
            rateOf (isPeakHour ((tc.map PeriodEntry.hour).getD i 0))
              sys.peakCost sys.offPeakCost -
          (if jsTruthy sys.feedInTariff ∧
              0 < (exportedSolarList sys tc gs).getD i 0
            then (exportedSolarList sys tc gs).getD i 0 *
              sys.feedInTariff.getD 0
            else 0) ∧
      (nonSolarCostList sys tc gs).getD i 0 =
        (tc.map PeriodEntry.value).getD i 0 *
          rateOf (isPeakHour ((tc.map PeriodEntry.hour).getD i 0))
            sys.peakCost sys.offPeakCost := by
  simpa [consumptionCostList, consumptionGridList, exportedSolarList,
    nonSolarCostList, runConsumption] using runFrom_cost_formula sys tc gs 0 i hi

/-- Witness for C8 at a concrete input. -/
theorem C8_cost_accounting_witness :
    (0 : ℕ) < ([⟨15, 2⟩] : List PeriodEntry).length ∧
      ((consumptionCostList {peakCost := some 3, feedInTariff := some 1}
            [⟨15, 2⟩] []).getD 0 0 =
          (consumptionGridList {peakCost := some 3, feedInTariff := some 1}
              [⟨15, 2⟩] []).getD 0 0 *
            rateOf (isPeakHour ((([⟨15, 2⟩] : List PeriodEntry).map
                PeriodEntry.hour).getD 0 0))
              (some 3) none -
          (if jsTruthy (some 1) ∧
              0 < (exportedSolarList {peakCost := some 3, feedInTariff := some 1}
                [⟨15, 2⟩] []).getD 0 0
            then (exportedSolarList {peakCost := some 3, feedInTariff := some 1}
              [⟨15, 2⟩] []).getD 0 0 * (Option.getD (some 1) 0)
            else 0) ∧
        (nonSolarCostList {peakCost := some 3, feedInTariff := some 1}
            [⟨15, 2⟩] []).getD 0 0 =
          (([⟨15, 2⟩] : List PeriodEntry).map PeriodEntry.value).getD 0 0 *
            rateOf (isPeakHour ((([⟨15, 2⟩] : List PeriodEntry).map
                PeriodEntry.hour).getD 0 0))
              (some 3) none) :=
  ⟨by decide,
    C8_cost_accounting {peakCost := some 3, feedInTariff := some 1}
      [⟨15, 2⟩] [] 0 (by decide)⟩

lemma rateOf_offPeak_zero (p : Bool) (pc : Option ℚ) :
    rateOf p pc (some 0) = rateOf p pc none := by
  simp [rateOf, jsOrOpt, jsTruthy]

lemma stepPeriod_offPeak_zero (sys : EnergySystemDetails) (lvl : ℚ)
    (e : PeriodEntry) (s : ℚ) :
    stepPeriod {sys with offPeakCost := some 0} lvl e s =
      stepPeriod {sys with offPeakCost := none} lvl e s := by
  simp only [stepPeriod, rateOf_offPeak_zero]

lemma runFrom_offPeak_zero (sys : EnergySystemDetails) :
    ∀ (tc gs : List PeriodEntry) (lvl : ℚ),
      runFrom {sys with offPeakCost := some 0} lvl tc gs =
        runFrom {sys with offPeakCost := none} lvl tc gs := by
  intro tc
  induction tc with
  | nil => intro gs lvl; rfl
  | cons c cs ih =>
    intro gs lvl
    simp only [runFrom, stepPeriod_offPeak_zero, ih]

/-- C10: a period is classified as peak exactly when its local hour lies in
`[14, 20)` — a window fixed in the simulator regardless of the supplied
`EnergySystemDetails` — and an off-peak rate configured as `0` behaves
exactly like an absent off-peak rate. -/
theorem C10_peak_window_fixed :
    (∀ (sys : EnergySystemDetails) (h : ℕ) (c : ℚ), 0 < c →
        consumptionCostList sys [⟨h, c⟩] [] =
          [c * (if 14 ≤ h ∧ h < 20 then jsOrZero sys.peakCost
            else jsOrZero (jsOrOpt sys.offPeakCost sys.peakCost))]) ∧
      ∀ (sys : EnergySystemDetails) (tc gs : List PeriodEntry),
        runConsumption {sys with offPeakCost := some 0} tc gs =
          runConsumption {sys with offPeakCost := none} tc gs := by
  constructor
  · intro sys h c hc
    have hmin : min c (0 : ℚ) = 0 := min_eq_right hc.le
    simp only [consumptionCostList, runConsumption, runFrom, stepPeriod,
      List.head?, Option.map, Option.getD, List.map, rateOf, isPeakHour]
    rw [hmin]
    have hgrid : (0 : ℚ) < c - 0 - 0 := by linarith
    simp only [sub_zero, lt_self_iff_false, and_false, false_and, if_false,
      lt_irrefl, hc, if_true, and_true]
    congr 1
    by_cases hpk : 14 ≤ h ∧ h < 20
    · simp [hpk]
    · simp [hpk]
  · intro sys tc gs
    exact runFrom_offPeak_zero sys tc gs 0

/-- Witness for C10 at a concrete input. -/
theorem C10_peak_window_fixed_witness :
    consumptionCostList {peakCost := some 3, offPeakCost := some 2}
        [⟨15, 1⟩] [] =
      [1 * (if 14 ≤ 15 ∧ 15 < 20 then jsOrZero (some 3)
        else jsOrZero (jsOrOpt (some 2) (some 3)))] :=
  C10_peak_window_fixed.1 {peakCost := some 3, offPeakCost := some 2} 15 1
    (by decide)

/-- A row of a parsed CSV input (`any[] | string[][]`): PapaParse delivers
either an object row (header-keyed fields) or a plain array row. -/
inductive CsvRow where
  | obj (fields : List (String × String))
  | arr (cells : List String)
deriving DecidableEq, Repr

/-- `typeof row === 'object' && !Array.isArray(row)`. -/
def CsvRow.isObject : CsvRow → Bool
  | .obj _ => true
  | .arr _ => false

/-- `'key' in row` for an object row (`false` on an array row, which the
probes never reach thanks to their `!Array.isArray` guard). -/
def CsvRow.hasKey (r : CsvRow) (k : String) : Bool :=
  match r with
  | .obj fields => fields.any (fun p => p.1 == k)
  | .arr _ => false

/-- `row[0]` of an array row, as `cells.head?`. -/
def CsvRow.firstCell (r : CsvRow) : Option String :=
  match r with
  | .obj _ => none
  | .arr cells => cells.head?

/-- The closed set of CSV parsers, in the priority order of the `parsers`
array of src/parsers/csvProcessor.ts. -/
inductive ParserId where
  | origin
  | nem12
  | jemena
  | powerpal
deriving DecidableEq, Repr

/-- The `isValid` probe of each parser:
Origin checks an object first row for `Usage Type` and `Amount Used`;
NEM12 checks an array first row whose first cell is the record code `100`;
Jemena checks an object first row for `NMI` and `CON/GEN`;
Powerpal checks an object first row for `datetime_utc` and `watt_hours`. -/
def isValidOf (p : ParserId) (data : List CsvRow) : Bool :=
  match data with
  | [] => false
  | r :: _ =>
    match p with
    | .origin => r.isObject && (r.hasKey "Usage Type" && r.hasKey "Amount Used")
    | .nem12 => r.firstCell == some "100"
    | .jemena => r.isObject && (r.hasKey "NMI" && r.hasKey "CON/GEN")
    | .powerpal => r.isObject && (r.hasKey "datetime_utc" && r.hasKey "watt_hours")

/-- The priority order `[Origin, NEM12, Jemena, Powerpal]` of the selector. -/
def parserOrder : List ParserId :=
  [.origin, .nem12, .jemena, .powerpal]

/-- The error thrown when no parser matches. -/
def noSuitableParserMsg : String :=
  "No suitable CSV parser found for the provided data format."

/-- `getEnergyCsvParser` (src/parsers/csvProcessor.ts):
`parsers.find(parser => parser.isValid(data))`, throwing if none match. -/
def getEnergyCsvParser (data : List CsvRow) : Except String ParserId :=
  match parserOrder.find? (fun p => isValidOf p data) with
  | some p => .ok p
  | none => .error noSuitableParserMsg

/-- A sample Origin export row: `Usage Type` / `Amount Used` columns. -/
def originSample : List CsvRow :=
  [.obj [("Usage Type", "Consumption"), ("Amount Used", "1.2"),
    ("From (date/time)", "2024-01-01T00:00"), ("To (date/time)", "2024-01-01T00:30")]]

/-- A sample NEM12 export: leading record code `100`. -/
def nem12Sample : List CsvRow :=
  [.arr ["100", "NEM12", "202401011130"], .arr ["200", "6001", "E1", "E1", "N1", "30"]]

/-- A sample Jemena export row: `NMI` / `CON/GEN` columns. -/
def jemenaSample : List CsvRow :=
  [.obj [("NMI", "6001"), ("METER SERIAL NUMBER", "123"), ("CON/GEN", "Consumption"),
    ("DATE", "01/01/2024")]]

/-- A sample Powerpal export row: `datetime_utc` / `watt_hours` columns. -/
def powerpalSample : List CsvRow :=
  [.obj [("datetime_utc", "2024-01-01 00:00:00"), ("datetime_local", "2024-01-01 11:00:00"),
    ("watt_hours", "25"), ("cost_dollars", "0.01"), ("is_peak", "False")]]

lemma getEnergyCsvParser_chain (data : List CsvRow) :
    getEnergyCsvParser data =
      (if isValidOf .origin data then .ok .origin
       else if isValidOf .nem12 data then .ok .nem12
       else if isValidOf .jemena data then .ok .jemena
       else if isValidOf .powerpal data then .ok .powerpal
       else .error noSuitableParserMsg) := by
  simp only [getEnergyCsvParser, parserOrder, List.find?]
  cases ho : isValidOf .origin data <;>
    cases hn : isValidOf .nem12 data <;>
      cases hj : isValidOf .jemena data <;>
        cases hp : isValidOf .powerpal data <;>
          simp [ho, hn, hj, hp]

/-- C6: the selector probes the parsers in the fixed order Origin, NEM12,
Jemena, Powerpal and returns the first whose `isValid` accepts; each of the
four sample shapes is accepted by its own parser and rejected by the other
three probes; an input accepted by no probe yields the `NoSuitableParser`
error. -/
theorem C6_parser_selection :
    (∀ data, getEnergyCsvParser data =
      (if isValidOf .origin data then .ok .origin
       else if isValidOf .nem12 data then .ok .nem12
       else if isValidOf .jemena data then .ok .jemena
       else if isValidOf .powerpal data then .ok .powerpal
       else .error noSuitableParserMsg)) ∧
      (getEnergyCsvParser originSample = .ok .origin ∧
        isValidOf .nem12 originSample = false ∧
        isValidOf .jemena originSample = false ∧
        isValidOf .powerpal originSample = false) ∧
      (getEnergyCsvParser nem12Sample = .ok .nem12 ∧
        isValidOf .origin nem12Sample = false ∧
        isValidOf .jemena nem12Sample = false ∧
        isValidOf .powerpal nem12Sample = false) ∧
      (getEnergyCsvParser jemenaSample = .ok .jemena ∧
        isValidOf .origin jemenaSample = false ∧
        isValidOf .nem12 jemenaSample = false ∧
        isValidOf .powerpal jemenaSample = false) ∧
      (getEnergyCsvParser powerpalSample = .ok .powerpal ∧
        isValidOf .origin powerpalSample = false ∧
        isValidOf .nem12 powerpalSample = false ∧
        isValidOf .jemena powerpalSample = false) ∧
      ∀ data, (∀ p, isValidOf p data = false) →
        getEnergyCsvParser data = .error noSuitableParserMsg := by
  refine ⟨getEnergyCsvParser_chain, ⟨rfl, rfl, rfl, rfl⟩, ⟨rfl, rfl, rfl, rfl⟩,
    ⟨rfl, rfl, rfl, rfl⟩, ⟨rfl, rfl, rfl, rfl⟩, ?_⟩
  intro data hall
  rw [getEnergyCsvParser_chain]
  simp [hall ParserId.origin, hall ParserId.nem12, hall ParserId.jemena,
    hall ParserId.powerpal]

/-- Witness for C6 at a concrete input accepted by no parser. -/
theorem C6_parser_selection_witness :
    getEnergyCsvParser [.obj [("foo", "1")]] = .error noSuitableParserMsg :=
  C6_parser_selection.2.2.2.2.2 [.obj [("foo", "1")]] (fun p => by cases p <;> rfl)

/-- Sum of a per-minute density over the half-open minute range `[a, b)` —
the `for (let m = a; m < b; m++) sum += pdf(m)` pattern of
`splitIrradianceValue` (src/services/solarIrradianceService.ts). -/
def densitySum (pdf : ℤ → ℚ) (a b : ℤ) : ℚ :=
  ∑ m in Finset.Ico a b, pdf m

/-- The block loop `for (let i = sunrise; i < sunset; i += periodInMinutes)`
of `splitIrradianceValue`: each block contributes
`blockPdfSum / pdfSum × entry.value`, the block's density being summed over
`[i, min(i + periodInMinutes, sunset))`. -/
def splitLoop (pdf : ℤ → ℚ) (pdfSum entryValue : ℚ) (sunset p : ℤ)
    (hp : 0 < p) (i : ℤ) : List ℚ :=
  if hi : i < sunset then
    densitySum pdf i (min (i + p) sunset) / pdfSum * entryValue ::
      splitLoop pdf pdfSum entryValue sunset p hp (i + p)
  else []
termination_by (sunset - i).toNat
decreasing_by simp_wf; omega

/-- `splitIrradianceValue` (src/services/solarIrradianceService.ts): returns
no entries when daylight is non-positive, otherwise distributes the daily
value across period blocks in proportion to the per-minute density.  The
Gaussian `normalPDF` (built on `Math.exp`) is abstracted as the strictly
positive density parameter `pdf`. -/
def splitIrradianceValue (pdf : ℤ → ℚ) (value : ℚ)
    (sunrise sunset p : ℤ) (hp : 0 < p) : List ℚ :=
  if sunset - sunrise ≤ 0 then []
  else splitLoop pdf (densitySum pdf sunrise sunset) value sunset p hp sunrise

lemma splitLoop_sum (pdf : ℤ → ℚ) (S v : ℚ) (sunset p : ℤ) (hp : 0 < p) :
    ∀ (n : ℕ) (i : ℤ), (sunset - i).toNat ≤ n →
      (splitLoop pdf S v sunset p hp i).sum = densitySum pdf i sunset / S * v := by
  intro n
  induction n with
  | zero =>
    intro i hle
    have hi : ¬ i < sunset := by omega
    rw [splitLoop, dif_neg hi]
    have : Finset.Ico i sunset = ∅ := Finset.Ico_eq_empty (by omega)
    simp [densitySum, this]
  | succ n ih =>
    intro i hle
    by_cases hi : i < sunset
    · rw [splitLoop, dif_pos hi, List.sum_cons, ih (i + p) (by omega)]
      by_cases hend : i + p ≤ sunset
      · have hmin : min (i + p) sunset = i + p := min_eq_left hend
        have hsplit : densitySum pdf i (i + p) + densitySum pdf (i + p) sunset =
            densitySum pdf i sunset := by
          unfold densitySum
          rw [← Finset.sum_union (Finset.Ico_disjoint_Ico_consecutive i (i + p) sunset),
            Finset.Ico_union_Ico_eq_Ico (by omega : i ≤ i + p) hend]
        rw [hmin]
        linear_combination (v / S) * hsplit
      · have hmin : min (i + p) sunset = sunset := min_eq_right (by omega)
        have hempty : Finset.Ico (i + p) sunset = ∅ :=
          Finset.Ico_eq_empty (by omega)
        rw [hmin]
        simp [densitySum, hempty]
    · rw [splitLoop, dif_neg hi]
      have : Finset.Ico i sunset = ∅ := Finset.Ico_eq_empty (by omega)
      simp [densitySum, this]

/-- C4: for every day with rounded sunrise strictly before rounded sunset,
every positive period length and every strictly positive per-minute density
(in particular the Gaussian), the per-period values emitted by
`splitIrradianceValue` sum to exactly the daily input value.  Exact over
`ℚ`, hence within the 1e-6 tolerance. -/
theorem C4_gaussian_split_exact (pdf : ℤ → ℚ) (value : ℚ)
    (sunrise sunset p : ℤ) (hp : 0 < p) (hd : sunrise < sunset)
    (hpos : ∀ m, 0 < pdf m) :
    (splitIrradianceValue pdf value sunrise sunset p hp).sum = value := by
  have hS : 0 < densitySum pdf sunrise sunset :=
    Finset.sum_pos (fun m _ => hpos m) (Finset.nonempty_Ico.mpr hd)
  rw [splitIrradianceValue, if_neg (by omega)]
  rw [splitLoop_sum pdf _ value sunset p hp (sunset - sunrise).toNat sunrise le_rfl]
  rw [div_self hS.ne', one_mul]

/-- Witness for C4 at a concrete input. -/
theorem C4_gaussian_split_exact_witness :
    (0 : ℤ) < 3 ∧
      (splitIrradianceValue (fun _ => 1) 5 0 3 2 (by norm_num)).sum = 5 :=
  ⟨by decide,
    C4_gaussian_split_exact (fun _ => 1) 5 0 3 2 (by norm_num) (by decide)
      (fun _ => one_pos)⟩

/-- A zero-value-entry loop of `processSolarIrradianceData`
(src/services/solarIrradianceService.ts):
`for (let i = start; i < bound; i += periodInMinutes)` pushing one
zero-valued period entry per iteration. -/
def zeroLoop (bound p : ℤ) (hp : 0 < p) (i : ℤ) : List ℚ :=
  if hi : i < bound then
    (0 : ℚ) :: zeroLoop bound p hp (i + p)
  else []
termination_by (bound - i).toNat
decreasing_by simp_wf; omega

/-- The per-day body of `processSolarIrradianceData`: pre-sunrise zeros from
`midnightUtcMinutes` to the rounded sunrise, the distributed daylight
values, then the post-sunset zero loop — whose bound in the source is
`i < (1440 - roundedSunset)`, not `i < 1440`. -/
def processDayEntries (pdf : ℤ → ℚ) (value : ℚ)
    (midnightUtcMinutes roundedSunrise roundedSunset p : ℤ) (hp : 0 < p) :
    List ℚ :=
  zeroLoop roundedSunrise p hp midnightUtcMinutes ++
    splitIrradianceValue pdf value roundedSunrise roundedSunset p hp ++
    zeroLoop (1440 - roundedSunset) p hp roundedSunset

/-- C5 (code bug): for a UTC day with rounded sunrise 06:00 (minute 360),
rounded sunset 18:00 (minute 1080), local midnight at minute 0 and 30-minute
periods, the day's emitted entries number 36, not `1440 / 30 = 48`: the
post-sunset loop bound `i < (1440 - roundedSunset)` is `i < 360`, so the loop
never runs once the rounded sunset passes minute 720. -/
theorem C5_period_count_bug :
    (processDayEntries (fun _ => 1) 5 0 360 1080 30 (by norm_num)).length = 36 ∧
      (1440 : ℤ) / 30 = 48 ∧ (36 : ℕ) ≠ 48 := by
  refine ⟨?_, by norm_num, by norm_num⟩
  simp [processDayEntries, zeroLoop, splitIrradianceValue, splitLoop]

/-- An entry keyed by its date string's epoch value in milliseconds
(`new Date(entry.date).getTime()`). -/
structure MsEntry where
  ms : ℤ
  value : ℚ
deriving DecidableEq, Repr

/-- JavaScript `%` on numbers truncates toward zero. -/
def jsMod (a b : ℤ) : ℤ :=
  Int.tmod a b

/-- Writing a date with `new Date(ms).toISOString().slice(0, 16)` keeps whole
minutes; on the epoch value this floors to a multiple of 60000 ms. -/
def minuteFloor (ms : ℤ) : ℤ :=
  60000 * Int.fdiv ms 60000

/-- The aggregation loop of `aggregateToInterval`
(src/parsers/csvProcessor.ts), carried state `(blockStart, blockSum,
blockCount)`: push the finished block when the entry's block start moves on,
then the final partial block after the loop. -/
def aggLoop (target blockStart : ℤ) (blockSum : ℚ) (blockCount : ℕ) :
    List MsEntry → List MsEntry
  | [] =>
    if 0 < blockCount then [⟨minuteFloor blockStart, blockSum⟩] else []
  | e :: rest =>
    let entryBlockStart := e.ms - jsMod e.ms target
    if entryBlockStart ≠ blockStart ∧ 0 < blockCount then
      ⟨minuteFloor blockStart, blockSum⟩ ::
        aggLoop target entryBlockStart e.value 1 rest
    else
      aggLoop target blockStart (blockSum + e.value) (blockCount + 1) rest

/-- The per-entry body of the split branch of `aggregateToInterval`:
`nBlocks = Math.round((nextMs - entryMs) / targetIntervalMs)` sub-blocks,
each holding `entry.value / nBlocks`.  `Math.round` rounds half toward +∞,
which is Mathlib's `round` on `ℚ`. -/
def mkBlocks (e : MsEntry) (nextMs target : ℤ) : List MsEntry :=
  let nBlocks : ℤ := round (((nextMs - e.ms : ℤ) : ℚ) / ((target : ℤ) : ℚ))
  (List.range nBlocks.toNat).map fun b : ℕ =>
    ⟨minuteFloor (e.ms + (b : ℤ) * target), e.value / ((nBlocks : ℤ) : ℚ)⟩

/-- The split branch of `aggregateToInterval`: each entry's value is spread
over the sub-blocks up to the next entry (the last entry using
`entryMs + rawIntervalMs`). -/
def splitDownLoop (rawInterval target : ℤ) : List MsEntry → List MsEntry
  | [] => []
  | [e] => mkBlocks e (e.ms + rawInterval) target
  | e :: e2 :: rest =>
    mkBlocks e e2.ms target ++ splitDownLoop rawInterval target (e2 :: rest)

/-- `aggregateToInterval` (src/parsers/csvProcessor.ts): sort by timestamp,
infer the native spacing from the first two entries (defaulting to the
target when fewer than two), then return unchanged / aggregate up / split
down according to how the native spacing compares to the target. -/
def aggregateToInterval (entries : List MsEntry) (periodInMinutes : ℤ) :
    List MsEntry :=
  match List.insertionSort (fun a b => a.ms ≤ b.ms) entries with
  | [] => []
  | e0 :: rest =>
    let targetIntervalMs := periodInMinutes * 60000
    let rawIntervalMs :=
      match rest with
      | [] => targetIntervalMs
      | e1 :: _ => e1.ms - e0.ms
    if rawIntervalMs = targetIntervalMs then e0 :: rest
    else if rawIntervalMs < targetIntervalMs then
      aggLoop targetIntervalMs (e0.ms - jsMod e0.ms targetIntervalMs) 0 0
        (e0 :: rest)
    else splitDownLoop rawIntervalMs targetIntervalMs (e0 :: rest)

/-- A gap-free series aligned to its period: entries every `P` minutes
starting at epoch minute `m * P`. -/
def mkSeries (P : ℤ) : ℤ → List ℚ → List MsEntry
  | _, [] => []
  | m, x :: xs => ⟨m * (P * 60000), x⟩ :: mkSeries P (m + 1) xs

/-- The expected result of splitting `mkSeries P m v` to a period `p` with
`P = p * d`: each original entry becomes `d` sub-entries of value `x / d`. -/
def splitSeries (P p d : ℤ) : ℤ → List ℚ → List MsEntry
  | _, [] => []
  | m, x :: xs =>
    ((List.range d.toNat).map fun b : ℕ =>
        ⟨m * (P * 60000) + (b : ℤ) * (p * 60000), x / ((d : ℤ) : ℚ)⟩) ++
      splitSeries P p d (m + 1) xs

lemma minuteFloor_of_dvd (x : ℤ) (h : (60000 : ℤ) ∣ x) : minuteFloor x = x := by
  obtain ⟨k, rfl⟩ := h
  rw [minuteFloor, Int.mul_fdiv_cancel_left k (by norm_num)]

lemma jsMod_aligned (Q a r : ℤ) (ha : 0 ≤ a) (hr : 0 ≤ r) (hrQ : r < Q) :
    jsMod (a * Q + r) Q = r := by
  have hQ : 0 ≤ Q := le_trans hr hrQ.le
  have hnn : 0 ≤ a * Q + r := by positivity
  rw [jsMod, Int.tmod_eq_emod hnn hQ]
  rw [show a * Q + r = r + a * Q by ring, Int.add_mul_emod_self]
  exact Int.emod_eq_of_lt hr hrQ

lemma blockStart_aligned (Q a r : ℤ) (ha : 0 ≤ a) (hr : 0 ≤ r) (hrQ : r < Q) :
    (a * Q + r) - jsMod (a * Q + r) Q = a * Q := by
  rw [jsMod_aligned Q a r ha hr hrQ]; ring

lemma sum_map_const_range (n : ℕ) (c : ℚ) :
    ((List.range n).map (fun _ => c)).sum = n * c := by
  induction n with
  | zero => simp
  | succ k ih =>
    rw [List.range_succ, List.map_append, List.sum_append, ih]
    push_cast
    simp
    ring

lemma aggLoop_accum (target bs : ℤ) :
    ∀ (g : List MsEntry), (∀ e ∈ g, e.ms - jsMod e.ms target = bs) →
      ∀ (rest : List MsEntry) (s : ℚ) (k : ℕ),
        aggLoop target bs s k (g ++ rest) =
          aggLoop target bs (s + (g.map MsEntry.value).sum) (k + g.length)
            rest := by
  intro g
  induction g with
  | nil => intro _ rest s k; simp
  | cons e g' ih =>
    intro hall rest s k
    have he : e.ms - jsMod e.ms target = bs := hall e (by simp)
    rw [List.cons_append]
    simp only [aggLoop]
    rw [he, if_neg (by simp)]
    rw [ih (fun e' he' => hall e' (by simp [he'])) rest (s + e.value) (k + 1)]
    have h1 : s + e.value + (g'.map MsEntry.value).sum =
        s + ((e :: g').map MsEntry.value).sum := by
      simp [add_assoc]
    have h2 : k + 1 + g'.length = k + (e :: g').length := by
      simp only [List.length_cons]
      omega
    rw [h1, h2]

lemma jsMod_mul (Q a : ℤ) (ha : 0 ≤ a) (hQ : 0 < Q) :
    jsMod (a * Q) Q = 0 := by
  have h := jsMod_aligned Q a 0 ha le_rfl hQ
  simpa using h

lemma aggLoop_groups (P p d : ℤ) (hp : 0 < p) (hd : 0 < d) (hPd : P = p * d) :
    ∀ (v : List ℚ) (m' mb : ℤ), 0 ≤ m' → mb ≠ m' → ∀ (s : ℚ) (k : ℕ), 0 < k →
      aggLoop (P * 60000) (mb * (P * 60000)) s k (splitSeries P p d m' v) =
        ⟨mb * (P * 60000), s⟩ :: mkSeries P m' v := by
  have hP : 0 < P := by nlinarith
  have hQ : (0 : ℤ) < P * 60000 := by positivity
  have hq : (0 : ℤ) < p * 60000 := by positivity
  have hQQ : P * 60000 = d * (p * 60000) := by rw [hPd]; ring
  intro v
  induction v with
  | nil =>
    intro m' mb hm hne s k hk
    simp only [splitSeries, mkSeries, aggLoop, if_pos hk]
    rw [minuteFloor_of_dvd _ ⟨mb * P, by ring⟩]
  | cons x xs ih =>
    intro m' mb hm hne s k hk
    obtain ⟨n, hn⟩ : ∃ n, d.toNat = n + 1 := ⟨d.toNat - 1, by omega⟩
    have hdn : (d : ℤ) = (n : ℤ) + 1 := by omega
    simp only [splitSeries]
    rw [hn, List.range_succ_eq_map, List.map_cons, List.map_map,
      List.cons_append]
    have h0 : m' * (P * 60000) + ((0 : ℕ) : ℤ) * (p * 60000) =
        m' * (P * 60000) := by push_cast; ring
    rw [h0]
    simp only [aggLoop]
    have hj : jsMod (m' * (P * 60000)) (P * 60000) = 0 :=
      jsMod_mul (P * 60000) m' hm hQ
    rw [hj, sub_zero]
    have hne' : m' * (P * 60000) ≠ mb * (P * 60000) := by
      intro hcontra
      exact hne (mul_right_cancel₀ (ne_of_gt hQ) hcontra).symm
    rw [if_pos ⟨hne', hk⟩]
    rw [minuteFloor_of_dvd _ ⟨mb * P, by ring⟩]
    have hebs : ∀ e ∈ (List.range n).map
        ((fun b : ℕ => (⟨m' * (P * 60000) + (b : ℤ) * (p * 60000),
          x / ((d : ℤ) : ℚ)⟩ : MsEntry)) ∘ Nat.succ),
        e.ms - jsMod e.ms (P * 60000) = m' * (P * 60000) := by
      intro e he
      simp only [List.mem_map, Function.comp] at he
      obtain ⟨b, hb, rfl⟩ := he
      have hb' : ((Nat.succ b : ℕ) : ℤ) * (p * 60000) < P * 60000 := by
        rw [hQQ]
        have h1 : ((Nat.succ b : ℕ) : ℤ) ≤ (n : ℤ) := by
          have := List.mem_range.mp hb
          omega
        calc ((Nat.succ b : ℕ) : ℤ) * (p * 60000) ≤ (n : ℤ) * (p * 60000) :=
              mul_le_mul_of_nonneg_right h1 hq.le
          _ < d * (p * 60000) := by
              apply mul_lt_mul_of_pos_right _ hq
              omega
      exact blockStart_aligned (P * 60000) m' _ hm (by positivity) hb'
    rw [aggLoop_accum (P * 60000) (m' * (P * 60000)) _ hebs]
    have hsum : (((List.range n).map
        ((fun b : ℕ => (⟨m' * (P * 60000) + (b : ℤ) * (p * 60000),
          x / ((d : ℤ) : ℚ)⟩ : MsEntry)) ∘ Nat.succ)).map MsEntry.value).sum =
        (n : ℚ) * (x / ((d : ℤ) : ℚ)) := by
      rw [List.map_map]
      have : (MsEntry.value ∘ ((fun b : ℕ =>
          (⟨m' * (P * 60000) + (b : ℤ) * (p * 60000),
            x / ((d : ℤ) : ℚ)⟩ : MsEntry)) ∘ Nat.succ)) =
          fun _ : ℕ => x / ((d : ℤ) : ℚ) := by
        funext b; rfl
      rw [this, sum_map_const_range]
    rw [hsum]
    have hlen : ((List.range n).map
        ((fun b : ℕ => (⟨m' * (P * 60000) + (b : ℤ) * (p * 60000),
          x / ((d : ℤ) : ℚ)⟩ : MsEntry)) ∘ Nat.succ)).length = n := by
      simp
    rw [hlen]
    have hdQ : ((d : ℤ) : ℚ) ≠ 0 := by
      exact_mod_cast (ne_of_gt hd)
    have hs' : x / ((d : ℤ) : ℚ) + (n : ℚ) * (x / ((d : ℤ) : ℚ)) = x := by
      have hcast : ((n : ℚ) + 1) = ((d : ℤ) : ℚ) := by
        exact_mod_cast hdn.symm
      field_simp
      linear_combination x * hcast
    rw [hs']
    rw [ih (m' + 1) m' (by omega) (by omega) x (1 + n) (by omega)]
    simp [mkSeries]

lemma mkSeries_ms_lb (P : ℤ) (hP : 0 ≤ P) :
    ∀ (v : List ℚ) (m : ℤ), ∀ e ∈ mkSeries P m v, m * (P * 60000) ≤ e.ms := by
  intro v
  induction v with
  | nil => intro m e he; simp [mkSeries] at he
  | cons x xs ih =>
    intro m e he
    simp only [mkSeries, List.mem_cons] at he
    rcases he with rfl | he
    · exact le_rfl
    · refine le_trans ?_ (ih (m + 1) e he)
      have : (0 : ℤ) ≤ P * 60000 := by positivity
      nlinarith

lemma mkSeries_sorted (P : ℤ) (hP : 0 ≤ P) :
    ∀ (v : List ℚ) (m : ℤ),
      List.Sorted (fun a b : MsEntry => a.ms ≤ b.ms) (mkSeries P m v) := by
  intro v
  induction v with
  | nil => intro m; simp [mkSeries]
  | cons x xs ih =>
    intro m
    rw [mkSeries, List.sorted_cons]
    refine ⟨fun b hb => ?_, ih (m + 1)⟩
    refine le_trans ?_ (mkSeries_ms_lb P hP xs (m + 1) b hb)
    show m * (P * 60000) ≤ (m + 1) * (P * 60000)
    have : (0 : ℤ) ≤ P * 60000 := by positivity
    nlinarith

lemma splitSeries_ms_lb (P p d : ℤ) (hp : 0 ≤ p) (hP : 0 ≤ P) :
    ∀ (v : List ℚ) (m : ℤ), ∀ e ∈ splitSeries P p d m v,
      m * (P * 60000) ≤ e.ms := by
  intro v
  induction v with
  | nil => intro m e he; simp [splitSeries] at he
  | cons x xs ih =>
    intro m e he
    simp only [splitSeries, List.mem_append, List.mem_map] at he
    rcases he with ⟨b, _, rfl⟩ | he
    · have h1 : (0 : ℤ) ≤ (b : ℤ) * (p * 60000) := by positivity
      show m * (P * 60000) ≤ m * (P * 60000) + (b : ℤ) * (p * 60000)
      omega
    · refine le_trans ?_ (ih (m + 1) e he)
      show m * (P * 60000) ≤ (m + 1) * (P * 60000)
      have : (0 : ℤ) ≤ P * 60000 := by positivity
      nlinarith

lemma splitSeries_block_ms_ub (P p d m : ℤ) (hp : 0 < p) (hd : 0 < d)
    (hPd : P = p * d) (b : ℕ) (hb : b < d.toNat) (c : ℚ) :
    (⟨m * (P * 60000) + (b : ℤ) * (p * 60000), c⟩ : MsEntry).ms <
      (m + 1) * (P * 60000) := by
  have hb' : (b : ℤ) ≤ d - 1 := by omega
  have hq : (0 : ℤ) < p * 60000 := by positivity
  have h1 : (b : ℤ) * (p * 60000) ≤ (d - 1) * (p * 60000) :=
    mul_le_mul_of_nonneg_right hb' hq.le
  have h2 : (d - 1) * (p * 60000) < d * (p * 60000) :=
    mul_lt_mul_of_pos_right (by omega) hq
  have h3 : d * (p * 60000) = P * 60000 := by rw [hPd]; ring
  simp only []
  nlinarith [h1, h2, h3]

lemma splitSeries_sorted (P p d : ℤ) (hp : 0 < p) (hd : 0 < d)
    (hPd : P = p * d) :
    ∀ (v : List ℚ) (m : ℤ),
      List.Sorted (fun a b : MsEntry => a.ms ≤ b.ms) (splitSeries P p d m v) := by
  have hP : 0 ≤ P := by nlinarith
  intro v
  induction v with
  | nil => intro m; simp [splitSeries]
  | cons x xs ih =>
    intro m
    rw [splitSeries, List.Sorted, List.pairwise_append]
    refine ⟨?_, ih (m + 1), ?_⟩
    · refine List.Pairwise.map _ ?_ (List.pairwise_lt_range d.toNat)
      intro a b hab
      have hq : (0 : ℤ) ≤ p * 60000 := by positivity
      have : (a : ℤ) * (p * 60000) ≤ (b : ℤ) * (p * 60000) :=
        mul_le_mul_of_nonneg_right (by exact_mod_cast hab.le) hq
      simp only []
      omega
    · intro a ha b hb
      simp only [List.mem_map] at ha
      obtain ⟨i, hi, rfl⟩ := ha
      have h1 := splitSeries_block_ms_ub P p d m hp hd hPd i
        (List.mem_range.mp hi) (x / ((d : ℤ) : ℚ))
      have h2 := splitSeries_ms_lb P p d hp.le hP xs (m + 1) b hb
      exact le_trans h1.le h2

lemma mkBlocks_step (P p d m nextMs : ℤ) (x : ℚ) (hp : 0 < p) (hd : 0 < d)
    (hPd : P = p * d) (hnext : nextMs - m * (P * 60000) = P * 60000) :
    mkBlocks ⟨m * (P * 60000), x⟩ nextMs (p * 60000) =
      (List.range d.toNat).map fun b =>
        ⟨m * (P * 60000) + (b : ℤ) * (p * 60000), x / ((d : ℤ) : ℚ)⟩ := by
  have hq : ((p : ℤ) : ℚ) * 60000 ≠ 0 := by
    have : (0 : ℚ) < ((p : ℤ) : ℚ) := by exact_mod_cast hp
    positivity
  have hround : round (((nextMs - m * (P * 60000) : ℤ) : ℚ) /
      (((p * 60000 : ℤ) : ℤ) : ℚ)) = d := by
    rw [hnext]
    have : (((P * 60000 : ℤ) : ℚ)) / (((p * 60000 : ℤ) : ℚ)) = ((d : ℤ) : ℚ) := by
      rw [div_eq_iff (by push_cast; exact hq), hPd]
      push_cast
      ring
    rw [this, round_intCast]
  simp only [mkBlocks]
  rw [hround]
  refine List.map_congr_left ?_
  intro b _
  congr 1
  exact minuteFloor_of_dvd _ ⟨m * P + (b : ℤ) * p, by ring⟩

lemma splitDown_mkSeries (P p d : ℤ) (hp : 0 < p) (hd : 0 < d)
    (hPd : P = p * d) :
    ∀ (v : List ℚ) (m : ℤ),
      splitDownLoop (P * 60000) (p * 60000) (mkSeries P m v) =
        splitSeries P p d m v := by
  intro v
  induction v with
  | nil => intro m; rfl
  | cons x xs ih =>
    intro m
    cases xs with
    | nil =>
      simp only [mkSeries, splitDownLoop, splitSeries, List.append_nil]
      exact mkBlocks_step P p d m _ x hp hd hPd (by ring)
    | cons y t =>
      simp only [mkSeries, splitDownLoop, splitSeries]
      rw [mkBlocks_step P p d m _ x hp hd hPd (by ring)]
      have := ih (m + 1)
      simp only [mkSeries] at this
      rw [this, splitSeries]

lemma aggregateToInterval_nil (Pm : ℤ) : aggregateToInterval [] Pm = [] := rfl

lemma aggregateToInterval_singleton (e : MsEntry) (Pm : ℤ) :
    aggregateToInterval [e] Pm = [e] := by
  simp [aggregateToInterval, List.insertionSort, List.orderedInsert]

lemma aggregateToInterval_cons_sorted (e0 e1 : MsEntry) (L : List MsEntry)
    (Pm : ℤ)
    (hs : List.Sorted (fun a b : MsEntry => a.ms ≤ b.ms) (e0 :: e1 :: L)) :
    aggregateToInterval (e0 :: e1 :: L) Pm =
      (if e1.ms - e0.ms = Pm * 60000 then e0 :: e1 :: L
       else if e1.ms - e0.ms < Pm * 60000 then
         aggLoop (Pm * 60000) (e0.ms - jsMod e0.ms (Pm * 60000)) 0 0
           (e0 :: e1 :: L)
       else splitDownLoop (e1.ms - e0.ms) (Pm * 60000) (e0 :: e1 :: L)) := by
  simp only [aggregateToInterval]
  rw [List.Sorted.insertionSort_eq hs]

lemma agg_splitSeries (P p d : ℤ) (hp : 0 < p) (hd2 : 2 ≤ d)
    (hPd : P = p * d) :
    ∀ (x : ℚ) (xs : List ℚ) (m : ℤ), 0 ≤ m →
      aggregateToInterval (splitSeries P p d m (x :: xs)) P =
        mkSeries P m (x :: xs) := by
  intro x xs m hm
  have hd : 0 < d := by omega
  have hP : 0 < P := by nlinarith
  have hq : (0 : ℤ) < p * 60000 := by positivity
  have hQ : (0 : ℤ) < P * 60000 := by positivity
  have hqQ : p * 60000 < P * 60000 := by nlinarith
  obtain ⟨n, hn⟩ : ∃ n, d.toNat = n + 2 := ⟨d.toNat - 2, by omega⟩
  have hsorted := splitSeries_sorted P p d hp hd hPd (x :: xs) m
  have hsplit_eq : splitSeries P p d m (x :: xs) =
      (⟨m * (P * 60000), x / ((d : ℤ) : ℚ)⟩ : MsEntry) ::
        (⟨m * (P * 60000) + p * 60000, x / ((d : ℤ) : ℚ)⟩ : MsEntry) ::
        (((List.range n).map fun b : ℕ =>
            (⟨m * (P * 60000) + ((b : ℤ) + 2) * (p * 60000),
              x / ((d : ℤ) : ℚ)⟩ : MsEntry)) ++
          splitSeries P p d (m + 1) xs) := by
    rw [splitSeries, hn, List.range_succ_eq_map, List.map_cons,
      List.range_succ_eq_map, List.map_cons, List.map_cons, List.map_map,
      List.map_map, List.cons_append, List.cons_append]
    refine congrArg₂ _ (by norm_num) (congrArg₂ _ (by norm_num) ?_)
    refine congrArg₂ _ (List.map_congr_left fun b _ => ?_) rfl
    simp only [Function.comp, Nat.succ_eq_add_one]
    congr 1
  rw [hsplit_eq] at hsorted ⊢
  rw [aggregateToInterval_cons_sorted _ _ _ _ hsorted]
  have hraw : (⟨m * (P * 60000) + p * 60000, x / ((d : ℤ) : ℚ)⟩ : MsEntry).ms -
      (⟨m * (P * 60000), x / ((d : ℤ) : ℚ)⟩ : MsEntry).ms = p * 60000 := by
    show m * (P * 60000) + p * 60000 - m * (P * 60000) = p * 60000
    ring
  rw [hraw, if_neg (ne_of_lt hqQ), if_pos hqQ]
  have hbs : (⟨m * (P * 60000), x / ((d : ℤ) : ℚ)⟩ : MsEntry).ms -
      jsMod (⟨m * (P * 60000), x / ((d : ℤ) : ℚ)⟩ : MsEntry).ms (P * 60000) =
      m * (P * 60000) := by
    show m * (P * 60000) - jsMod (m * (P * 60000)) (P * 60000) = m * (P * 60000)
    rw [jsMod_mul (P * 60000) m hm hQ]
    ring
  rw [hbs, ← hsplit_eq, splitSeries]
  have hebs : ∀ e ∈ (List.range d.toNat).map fun b : ℕ =>
      (⟨m * (P * 60000) + (b : ℤ) * (p * 60000),
        x / ((d : ℤ) : ℚ)⟩ : MsEntry),
      e.ms - jsMod e.ms (P * 60000) = m * (P * 60000) := by
    intro e he
    simp only [List.mem_map] at he
    obtain ⟨b, hb, rfl⟩ := he
    have hbd : ((b : ℕ) : ℤ) < d := by
      have := List.mem_range.mp hb
      omega
    have hblt : ((b : ℕ) : ℤ) * (p * 60000) < P * 60000 := by
      calc ((b : ℕ) : ℤ) * (p * 60000) < d * (p * 60000) :=
            mul_lt_mul_of_pos_right hbd hq
        _ = P * 60000 := by rw [hPd]; ring
    exact blockStart_aligned (P * 60000) m _ hm (by positivity) hblt
  rw [aggLoop_accum (P * 60000) (m * (P * 60000)) _ hebs]
  have hsum : (((List.range d.toNat).map fun b : ℕ =>
      (⟨m * (P * 60000) + (b : ℤ) * (p * 60000),
        x / ((d : ℤ) : ℚ)⟩ : MsEntry)).map MsEntry.value).sum =
      (d.toNat : ℚ) * (x / ((d : ℤ) : ℚ)) := by
    rw [List.map_map]
    have : (MsEntry.value ∘ fun b : ℕ =>
        (⟨m * (P * 60000) + (b : ℤ) * (p * 60000),
          x / ((d : ℤ) : ℚ)⟩ : MsEntry)) = fun _ : ℕ => x / ((d : ℤ) : ℚ) := by
      funext b; rfl
    rw [this, sum_map_const_range]
  rw [hsum]
  have hlen : ((List.range d.toNat).map fun b : ℕ =>
      (⟨m * (P * 60000) + (b : ℤ) * (p * 60000),
        x / ((d : ℤ) : ℚ)⟩ : MsEntry)).length = d.toNat := by simp
  rw [hlen]
  have hx : (0 : ℚ) + (d.toNat : ℚ) * (x / ((d : ℤ) : ℚ)) = x := by
    have hdQ : ((d : ℤ) : ℚ) ≠ 0 := by exact_mod_cast (ne_of_gt hd)
    have hcast : (d.toNat : ℚ) = ((d : ℤ) : ℚ) := by
      norm_cast
      omega
    rw [hcast, zero_add, mul_div_cancel₀ x hdQ]
  rw [hx]
  rw [aggLoop_groups P p d hp hd hPd xs (m + 1) m (by omega) (by omega) x
    (0 + d.toNat) (by omega)]
  rw [mkSeries]

lemma aggregateToInterval_splits (P p d : ℤ) (hp : 0 < p) (hd2 : 2 ≤ d)
    (hPd : P = p * d) (x y : ℚ) (t : List ℚ) (m : ℤ) :
    aggregateToInterval (mkSeries P m (x :: y :: t)) p =
      splitSeries P p d m (x :: y :: t) := by
  have hd : 0 < d := by omega
  have hP : 0 < P := by nlinarith
  have hsorted := mkSeries_sorted P hP.le (x :: y :: t) m
  have hmk : mkSeries P m (x :: y :: t) =
      (⟨m * (P * 60000), x⟩ : MsEntry) ::
        (⟨(m + 1) * (P * 60000), y⟩ : MsEntry) ::
        mkSeries P (m + 1 + 1) t := by
    rw [mkSeries, mkSeries]
  rw [hmk] at hsorted ⊢
  rw [aggregateToInterval_cons_sorted _ _ _ _ hsorted]
  have hraw : (⟨(m + 1) * (P * 60000), y⟩ : MsEntry).ms -
      (⟨m * (P * 60000), x⟩ : MsEntry).ms = P * 60000 := by
    show (m + 1) * (P * 60000) - m * (P * 60000) = P * 60000
    ring
  rw [hraw]
  have hlt : p * 60000 < P * 60000 := by nlinarith
  rw [if_neg (ne_of_gt hlt), if_neg (not_lt.mpr hlt.le), ← hmk]
  exact splitDown_mkSeries P p d hp hd hPd (x :: y :: t) m

/-- C7 (amended): for every gap-free series aligned to its period with
non-negative (epoch 1970-or-later) timestamps, and every finer period that
evenly divides the original one, splitting with `aggregateToInterval` and
aggregating back returns the original series — timestamps and values exactly
equal over `ℚ`, hence within any floating tolerance. -/
theorem C7_roundtrip_resampling (P p m : ℤ) (v : List ℚ) (hp : 0 < p)
    (hP : 0 < P) (hdvd : p ∣ P) (hm : 0 ≤ m) :
    aggregateToInterval (aggregateToInterval (mkSeries P m v) p) P =
      mkSeries P m v := by
  obtain ⟨d, hPd⟩ := hdvd
  have hd : 0 < d := by
    by_contra hle
    push_neg at hle
    have hnp : p * d ≤ 0 := mul_nonpos_of_nonneg_of_nonpos hp.le hle
    linarith [hP, hPd ▸ hP]
  cases v with
  | nil => rfl
  | cons x xs =>
    cases xs with
    | nil =>
      show aggregateToInterval (aggregateToInterval
        [(⟨m * (P * 60000), x⟩ : MsEntry)] p) P = _
      rw [aggregateToInterval_singleton, aggregateToInterval_singleton]
      rfl
    | cons y t =>
      by_cases hd1 : d = 1
      · have hPpos : (0 : ℤ) ≤ P := hP.le
        have hsorted := mkSeries_sorted P hPpos (x :: y :: t) m
        have hmk : mkSeries P m (x :: y :: t) =
            (⟨m * (P * 60000), x⟩ : MsEntry) ::
              (⟨(m + 1) * (P * 60000), y⟩ : MsEntry) ::
              mkSeries P (m + 1 + 1) t := by
          rw [mkSeries, mkSeries]
        rw [hmk] at hsorted ⊢
        rw [aggregateToInterval_cons_sorted _ _ _ _ hsorted]
        have hraw : (⟨(m + 1) * (P * 60000), y⟩ : MsEntry).ms -
            (⟨m * (P * 60000), x⟩ : MsEntry).ms = P * 60000 := by
          show (m + 1) * (P * 60000) - m * (P * 60000) = P * 60000
          ring
        rw [hraw]
        have hpP : P * 60000 = p * 60000 := by rw [hPd, hd1]; ring
        rw [if_pos hpP, aggregateToInterval_cons_sorted _ _ _ _ hsorted,
          hraw, if_pos rfl]
      · have hd2 : 2 ≤ d := by omega
        rw [aggregateToInterval_splits P p d hp hd2 hPd x y t m]
        exact agg_splitSeries P p d hp hd2 hPd x (y :: t) m hm

/-- C7 counterexample to the claim as stated: for the gap-free hourly series
with entries at 1969-12-31 22:00 and 23:00 UTC (epoch ms −7200000 and
−3600000), splitting to 30 minutes and aggregating back does not return the
original series: JavaScript `%` truncates toward zero, so pre-1970 (negative
epoch) timestamps land in the wrong target block. -/
theorem C7_roundtrip_counterexample :
    aggregateToInterval (aggregateToInterval (mkSeries 60 (-2) [1, 1]) 30) 60 ≠
      mkSeries 60 (-2) [1, 1] := by
  rw [aggregateToInterval_splits 60 30 2 (by norm_num) (by norm_num)
    (by norm_num) 1 1 [] (-2)]
  have hlist : splitSeries 60 30 2 (-2) [1, 1] =
      [⟨-7200000, 1 / 2⟩, ⟨-5400000, 1 / 2⟩, ⟨-3600000, 1 / 2⟩,
        ⟨-1800000, 1 / 2⟩] := by
    norm_num [splitSeries, List.range_succ, show Int.toNat 2 = 2 from rfl]
  rw [hlist]
  have t1 : jsMod (-7200000 : ℤ) 3600000 = 0 := by decide
  have t2 : jsMod (-5400000 : ℤ) 3600000 = -1800000 := by decide
  have t3 : jsMod (-3600000 : ℤ) 3600000 = 0 := by decide
  have t4 : jsMod (-1800000 : ℤ) 3600000 = -1800000 := by decide
  have f1 : minuteFloor (-7200000 : ℤ) = -7200000 := by decide
  have f2 : minuteFloor (-3600000 : ℤ) = -3600000 := by decide
  have f3 : minuteFloor (0 : ℤ) = 0 := by decide
  have houter : aggregateToInterval
      [(⟨-7200000, 1 / 2⟩ : MsEntry), ⟨-5400000, 1 / 2⟩, ⟨-3600000, 1 / 2⟩,
        ⟨-1800000, 1 / 2⟩] 60 =
      [⟨-7200000, 1 / 2⟩, ⟨-3600000, 1⟩, ⟨0, 1 / 2⟩] := by
    rw [aggregateToInterval_cons_sorted _ _ _ 60
      (by norm_num [List.sorted_cons])]
    rw [if_neg (by norm_num), if_pos (by norm_num)]
    norm_num [aggLoop, t1, t2, t3, t4, f1, f2, f3]
  rw [houter]
  intro hEq
  have hlen := congrArg List.length hEq
  simp [mkSeries] at hlen

/-- Witness for C7 at a concrete input. -/
theorem C7_roundtrip_resampling_witness :
    aggregateToInterval (aggregateToInterval (mkSeries 60 1 [2, 3]) 30) 60 =
      mkSeries 60 1 [2, 3] :=
  C7_roundtrip_resampling 60 30 1 [2, 3] (by decide) (by decide) (by decide)
    (by decide)

/-- `deg * Math.PI / 180` (src/utils/solarTime.ts). -/
noncomputable def toRadians (deg : ℝ) : ℝ :=
  deg * Real.pi / 180

/-- `rad * 180 / Math.PI`. -/
noncomputable def toDegrees (rad : ℝ) : ℝ :=
  rad * 180 / Real.pi

/-- The fractional year `gamma` of `calculateSunriseSunset`; the day of year
and the UTC hour of the input date are taken as inputs. -/
noncomputable def fractionalYear (dayOfYear : ℕ) (hourUTC : ℤ) : ℝ :=
  2 * Real.pi / 365 * ((dayOfYear : ℝ) - 1 + ((hourUTC : ℝ) - 12) / 24)

/-- The equation of time (minutes) of `calculateSunriseSunset`. -/
noncomputable def eqTimeMinutes (γ : ℝ) : ℝ :=
  229.18 * (0.000075 + 0.001868 * Real.cos γ - 0.032077 * Real.sin γ -
    0.014615 * Real.cos (2 * γ) - 0.040849 * Real.sin (2 * γ))

/-- The solar declination (radians) of `calculateSunriseSunset`. -/
noncomputable def declination (γ : ℝ) : ℝ :=
  0.006918 - 0.399912 * Real.cos γ + 0.070257 * Real.sin γ -
    0.006758 * Real.cos (2 * γ) + 0.000907 * Real.sin (2 * γ) -
    0.002697 * Real.cos (3 * γ) + 0.00148 * Real.sin (3 * γ)

/-- The hour-angle cosine `cosH` of `calculateSunriseSunset` (zenith
90.833°). -/
noncomputable def cosHourAngle (latitude : ℚ) (decl : ℝ) : ℝ :=
  Real.cos (toRadians 90.833) /
      (Real.cos (toRadians (latitude : ℝ)) * Real.cos decl) -
    Real.tan (toRadians (latitude : ℝ)) * Real.tan decl

/-- The hour angle `ha` in degrees: `arccos` of `cosH` clamped to
`[-1, 1]`. -/
noncomputable def hourAngle (latitude : ℚ) (decl : ℝ) : ℝ :=
  toDegrees (Real.arccos (max (-1) (min 1 (cosHourAngle latitude decl))))

/-- The result record of `calculateSunriseSunset`, in UTC minutes. -/
structure SolarTime where
  sunrise : ℝ
  sunset : ℝ
  solarNoon : ℝ

/-- `calculateSunriseSunset` (src/utils/solarTime.ts), over `ℝ`. -/
noncomputable def calculateSunriseSunset (dayOfYear : ℕ) (hourUTC : ℤ)
    (latitude longitude : ℚ) : SolarTime :=
  let γ := fractionalYear dayOfYear hourUTC
  let et := eqTimeMinutes γ
  let ha := hourAngle latitude (declination γ)
  ⟨720 - 4 * ((longitude : ℝ) + ha) - et,
    720 - 4 * ((longitude : ℝ) - ha) - et,
    720 - 4 * (longitude : ℝ) - et⟩

lemma hourAngle_nonneg (lat : ℚ) (decl : ℝ) : 0 ≤ hourAngle lat decl := by
  unfold hourAngle toDegrees
  exact div_nonneg
    (mul_nonneg (Real.arccos_nonneg _) (by norm_num)) Real.pi_pos.le

lemma hourAngle_le_180 (lat : ℚ) (decl : ℝ) : hourAngle lat decl ≤ 180 := by
  unfold hourAngle toDegrees
  rw [div_le_iff Real.pi_pos]
  nlinarith [Real.arccos_le_pi (max (-1) (min 1 (cosHourAngle lat decl))),
    Real.pi_pos]

lemma tan_abs_eq (x : ℝ) (h : |x| < Real.pi / 2) :
    Real.tan |x| = |Real.tan x| := by
  rcases le_or_lt 0 x with hx | hx
  · rw [abs_of_nonneg hx,
      abs_of_nonneg (Real.tan_nonneg_of_nonneg_of_le_pi_div_two hx
        (le_of_lt (lt_of_le_of_lt (le_abs_self x) h)))]
  · have hx' : (0 : ℝ) ≤ -x := by linarith
    have h2 : -x ≤ Real.pi / 2 := by
      have := le_abs_self (-x)
      rw [abs_neg] at this
      linarith
    rw [abs_of_neg hx]
    rw [abs_of_nonpos (by
      have := Real.tan_nonneg_of_nonneg_of_le_pi_div_two hx' h2
      rw [Real.tan_neg] at this
      linarith)]
    rw [← Real.tan_neg]

lemma abs_tan_le_one (x : ℝ) (h : |x| ≤ Real.pi / 4) : |Real.tan x| ≤ 1 := by
  have hpi := Real.pi_pos
  have hlt : |x| < Real.pi / 2 := lt_of_le_of_lt h (by linarith)
  rw [← tan_abs_eq x hlt]
  rcases lt_or_eq_of_le h with h1 | h1
  · rw [← Real.tan_pi_div_four]
    exact le_of_lt (Real.tan_lt_tan_of_nonneg_of_lt_pi_div_two (abs_nonneg x)
      (by linarith) h1)
  · rw [h1, Real.tan_pi_div_four]

lemma abs_tan_lt_one (x : ℝ) (h : |x| ≤ 0.49) : |Real.tan x| < 1 := by
  have hpi3 := Real.pi_gt_three
  have hpi := Real.pi_pos
  have h4 : |x| < Real.pi / 4 := lt_of_le_of_lt h (by linarith)
  have hlt : |x| < Real.pi / 2 := by linarith
  rw [← tan_abs_eq x hlt, ← Real.tan_pi_div_four]
  exact Real.tan_lt_tan_of_nonneg_of_lt_pi_div_two (abs_nonneg x)
    (by linarith) h4

lemma declination_abs_le (γ : ℝ) : |declination γ| ≤ 0.49 := by
  have c1 := Real.neg_one_le_cos γ
  have c2 := Real.cos_le_one γ
  have s1 := Real.neg_one_le_sin γ
  have s2 := Real.sin_le_one γ
  have c3 := Real.neg_one_le_cos (2 * γ)
  have c4 := Real.cos_le_one (2 * γ)
  have s3 := Real.neg_one_le_sin (2 * γ)
  have s4 := Real.sin_le_one (2 * γ)
  have c5 := Real.neg_one_le_cos (3 * γ)
  have c6 := Real.cos_le_one (3 * γ)
  have s5 := Real.neg_one_le_sin (3 * γ)
  have s6 := Real.sin_le_one (3 * γ)
  rw [abs_le]
  unfold declination
  constructor <;> linarith

lemma cosHourAngle_lt_one (lat : ℚ) (γ : ℝ) (h1 : -45 ≤ lat) (h2 : lat ≤ 45) :
    cosHourAngle lat (declination γ) < 1 := by
  have hdecl := declination_abs_le γ
  have hpi3 := Real.pi_gt_three
  have hpipos := Real.pi_pos
  have hl : |((lat : ℚ) : ℝ)| ≤ 45 := by
    rw [abs_le]
    constructor <;> exact_mod_cast (by assumption : _)
  have habs : |((lat : ℚ) : ℝ) * Real.pi / 180| = |((lat : ℚ) : ℝ)| * Real.pi / 180 := by
    rw [abs_div, abs_mul, abs_of_pos hpipos]
    norm_num
  have hlatabs : |((lat : ℚ) : ℝ) * Real.pi / 180| ≤ Real.pi / 4 := by
    rw [habs]
    nlinarith
  have htanlat : |Real.tan (toRadians ((lat : ℚ) : ℝ))| ≤ 1 := by
    unfold toRadians
    exact abs_tan_le_one _ hlatabs
  have htandecl : |Real.tan (declination γ)| < 1 :=
    abs_tan_lt_one _ hdecl
  have hlat2 : |((lat : ℚ) : ℝ) * Real.pi / 180| < Real.pi / 2 := by
    calc |((lat : ℚ) : ℝ) * Real.pi / 180| ≤ Real.pi / 4 := hlatabs
      _ < Real.pi / 2 := by linarith
  have hcoslat : 0 < Real.cos (toRadians ((lat : ℚ) : ℝ)) := by
    unfold toRadians
    apply Real.cos_pos_of_mem_Ioo
    rw [abs_lt] at hlat2
    constructor <;> [linarith [hlat2.1]; linarith [hlat2.2]]
  have hcosdecl : 0 < Real.cos (declination γ) := by
    apply Real.cos_pos_of_mem_Ioo
    rw [abs_le] at hdecl
    constructor <;> [linarith [hdecl.1]; linarith [hdecl.2]]
  have hz1 : Real.pi / 2 < toRadians 90.833 := by
    unfold toRadians
    nlinarith
  have hz2 : toRadians 90.833 < Real.pi + Real.pi / 2 := by
    unfold toRadians
    nlinarith
  have hcosz : Real.cos (toRadians 90.833) < 0 :=
    Real.cos_neg_of_pi_div_two_lt_of_lt hz1 hz2
  have hA : Real.cos (toRadians 90.833) /
      (Real.cos (toRadians ((lat : ℚ) : ℝ)) * Real.cos (declination γ)) < 0 :=
    div_neg_of_neg_of_pos hcosz (mul_pos hcoslat hcosdecl)
  have hT : |Real.tan (toRadians ((lat : ℚ) : ℝ)) * Real.tan (declination γ)| <
      1 := by
    rw [abs_mul]
    calc |Real.tan (toRadians ((lat : ℚ) : ℝ))| * |Real.tan (declination γ)| ≤
        1 * |Real.tan (declination γ)| :=
          mul_le_mul_of_nonneg_right htanlat (abs_nonneg _)
      _ = |Real.tan (declination γ)| := one_mul _
      _ < 1 := htandecl
  unfold cosHourAngle
  have hneg := neg_le_abs
    (Real.tan (toRadians ((lat : ℚ) : ℝ)) * Real.tan (declination γ))
  linarith [hA, hT, hneg]

lemma hourAngle_pos (lat : ℚ) (γ : ℝ) (h1 : -45 ≤ lat) (h2 : lat ≤ 45) :
    0 < hourAngle lat (declination γ) := by
  unfold hourAngle toDegrees
  have hc := cosHourAngle_lt_one lat γ h1 h2
  have hclamped : max (-1) (min 1 (cosHourAngle lat (declination γ))) < 1 :=
    max_lt (by norm_num) (lt_of_le_of_lt (min_le_right _ _) hc)
  exact div_pos (mul_pos (Real.arccos_pos.mpr hclamped) (by norm_num))
    Real.pi_pos

/-- C9: for every date and coordinates in range, `calculateSunriseSunset`
returns `sunrise ≤ solarNoon ≤ sunset` symmetric about solar noon (the
clamped `arccos` keeps the hour angle in `[0°, 180°]` even in polar
day/night), and the ordering is strict for mid-latitudes (|lat| ≤ 45°, in
particular on the equinox). -/
theorem C9_sunrise_sunset_ordering (dayOfYear : ℕ) (hourUTC : ℤ)
    (lat lon : ℚ) (hlat1 : -90 ≤ lat) (hlat2 : lat ≤ 90)
    (hlon1 : -180 ≤ lon) (hlon2 : lon ≤ 180) :
    (calculateSunriseSunset dayOfYear hourUTC lat lon).sunrise ≤
        (calculateSunriseSunset dayOfYear hourUTC lat lon).solarNoon ∧
      (calculateSunriseSunset dayOfYear hourUTC lat lon).solarNoon ≤
        (calculateSunriseSunset dayOfYear hourUTC lat lon).sunset ∧
      (calculateSunriseSunset dayOfYear hourUTC lat lon).solarNoon -
          (calculateSunriseSunset dayOfYear hourUTC lat lon).sunrise =
        (calculateSunriseSunset dayOfYear hourUTC lat lon).sunset -
          (calculateSunriseSunset dayOfYear hourUTC lat lon).solarNoon ∧
      (0 ≤ hourAngle lat (declination (fractionalYear dayOfYear hourUTC)) ∧
        hourAngle lat (declination (fractionalYear dayOfYear hourUTC)) ≤ 180) ∧
      (-45 ≤ lat → lat ≤ 45 →
        (calculateSunriseSunset dayOfYear hourUTC lat lon).sunrise <
            (calculateSunriseSunset dayOfYear hourUTC lat lon).solarNoon ∧
          (calculateSunriseSunset dayOfYear hourUTC lat lon).solarNoon <
            (calculateSunriseSunset dayOfYear hourUTC lat lon).sunset) := by
  have h0 := hourAngle_nonneg lat (declination (fractionalYear dayOfYear hourUTC))
  have h180 := hourAngle_le_180 lat (declination (fractionalYear dayOfYear hourUTC))
  simp only [calculateSunriseSunset]
  refine ⟨by linarith, by linarith, by ring, ⟨h0, h180⟩, fun hm1 hm2 => ?_⟩
  have hpos := hourAngle_pos lat (fractionalYear dayOfYear hourUTC) hm1 hm2
  exact ⟨by linarith, by linarith⟩

/-- Witness for C9 at a concrete input (equinox day 80, latitude 45°N). -/
theorem C9_sunrise_sunset_ordering_witness :
    (calculateSunriseSunset 80 0 45 0).sunrise ≤
        (calculateSunriseSunset 80 0 45 0).solarNoon ∧
      (calculateSunriseSunset 80 0 45 0).solarNoon ≤
        (calculateSunriseSunset 80 0 45 0).sunset ∧
      (calculateSunriseSunset 80 0 45 0).solarNoon -
          (calculateSunriseSunset 80 0 45 0).sunrise =
        (calculateSunriseSunset 80 0 45 0).sunset -
          (calculateSunriseSunset 80 0 45 0).solarNoon ∧
      (0 ≤ hourAngle 45 (declination (fractionalYear 80 0)) ∧
        hourAngle 45 (declination (fractionalYear 80 0)) ≤ 180) ∧
      (-45 ≤ (45 : ℚ) → (45 : ℚ) ≤ 45 →
        (calculateSunriseSunset 80 0 45 0).sunrise <
            (calculateSunriseSunset 80 0 45 0).solarNoon ∧
          (calculateSunriseSunset 80 0 45 0).solarNoon <
            (calculateSunriseSunset 80 0 45 0).sunset) :=
  C9_sunrise_sunset_ordering 80 0 45 0 (by decide) (by decide) (by decide)
    (by decide)

end Solar
